import Mathlib

/-!
Verification of the citation-reconciliation logic of `src/chatbot.py`:
`sanitize_text`, `extract_sources_and_quotes`, `inject_inline_citations`,
and the references rendering block of the turn handler.

Python strings are modelled as `String` / `List Char`; Python dicts of the
shapes actually constructed by the code are modelled as structures; the
loosely-typed model-response object consumed by `extract_sources_and_quotes`
is modelled by the inductive `PyVal` below.
-/

namespace Chatbot

/-- Python whitespace: the characters accepted by `str.isspace()` and matched
by `\s` in a `str` regex.  Used by `str.strip()` and by the `\s*` parts of the
references-heading regex. -/
def isSpacePy (c : Char) : Bool :=
  c = ' ' || c = '\t' || c = '\n' || c = '\r' || c = '\x0b' || c = '\x0c' ||
  c = '\x1c' || c = '\x1d' || c = '\x1e' || c = '\x1f' || c = '\u0085' ||
  c = '\u00A0' || c = '\u1680' ||
  (decide ('\u2000' ≤ c) && decide (c ≤ '\u200A')) ||
  c = '\u2028' || c = '\u2029' || c = '\u202F' || c = '\u205F' || c = '\u3000'

/-- The line boundaries recognised by Python `str.splitlines()`
(besides the combined boundary `"\r\n"`). -/
def isLineBreak (c : Char) : Bool :=
  c = '\n' || c = '\r' || c = '\x0b' || c = '\x0c' ||
  c = '\x1c' || c = '\x1d' || c = '\x1e' || c = '\u0085' ||
  c = '\u2028' || c = '\u2029'

/-- The zero-width characters deleted by `sanitize_text` via `str.translate`
(`_ZERO_WIDTH`: U+200B, U+200C, U+200D, U+2060). -/
def isZeroWidth (c : Char) : Bool :=
  c = '\u200B' || c = '\u200C' || c = '\u200D' || c = '\u2060'

/-- Python `str.strip()` on a character list: drop whitespace from both ends. -/
def pyStripL (cs : List Char) : List Char :=
  ((cs.dropWhile isSpacePy).reverse.dropWhile isSpacePy).reverse

/-- Python `str.strip()`. -/
def pyStrip (s : String) : String :=
  String.mk (pyStripL s.data)

/-- Worker for `str.splitlines()`: `acc` is the reversed current line.
`"\r\n"` counts as a single boundary; a boundary at the end of the input does
not open a final empty line. -/
def splitlinesGo (acc : List Char) : List Char → List (List Char)
  | [] => [acc.reverse]
  | '\r' :: '\n' :: rest =>
    acc.reverse :: (if rest.isEmpty then [] else splitlinesGo [] rest)
  | c :: rest =>
    if isLineBreak c then
      acc.reverse :: (if rest.isEmpty then [] else splitlinesGo [] rest)
    else
      splitlinesGo (c :: acc) rest

/-- Python `str.splitlines()`; the empty string yields no lines. -/
def pySplitlines (s : String) : List String :=
  if s.data.isEmpty then [] else (splitlinesGo [] s.data).map String.mk

/-- Python `"\n".join` on character lists. -/
def joinNLL : List (List Char) → List Char
  | [] => []
  | [l] => l
  | l :: ls => l ++ '\n' :: joinNLL ls

/-- Python `"\n".join`. -/
def joinNL (ls : List String) : String :=
  String.mk (joinNLL (ls.map String.data))

/-! ### `sanitize_text` (src/chatbot.py lines 99-110) -/

/-- The private-use wrapper characters matched by
`_CITE_WRAP_RE` (U+E200 `.*?` U+E201, DOTALL). -/
def citeOpen : Char := '\uE200'

def citeClose : Char := '\uE201'

/-- Scan for the first `citeClose` and return the suffix after it (the
non-greedy `.*?` of `_CITE_WRAP_RE` stops at the first closer). -/
def findClose : List Char → Option (List Char)
  | [] => none
  | c :: cs => if c = citeClose then some cs else findClose cs

/-- `_CITE_WRAP_RE.sub("", s)`: left-to-right scan removing each
`citeOpen … citeClose` span (shortest match); an unmatched `citeOpen` is kept.
Fuel-indexed so that the definition is structurally recursive; `stripCW`
supplies enough fuel. -/
def stripCWFuel : Nat → List Char → List Char
  | 0, cs => cs
  | _ + 1, [] => []
  | fuel + 1, c :: rest =>
    if c = citeOpen then
      match findClose rest with
      | some rest' => stripCWFuel fuel rest'
      | none => c :: stripCWFuel fuel rest
    else
      c :: stripCWFuel fuel rest

def stripCW (cs : List Char) : List Char :=
  stripCWFuel cs.length cs

/-- Match a literal character list at the head of the input, returning the
rest. -/
def parseLit : List Char → List Char → Option (List Char)
  | [], cs => some cs
  | _ :: _, [] => none
  | l :: ls, c :: cs => if c = l then parseLit ls cs else none

/-- Try to match `_TURN_FILE_RE = \[turn\d+file\d+\]` at the head of the
input, returning the suffix after the match.  Since a digit run is always
followed by a non-digit literal here, the greedy `\d+` is exactly a maximal
digit run. -/
def matchTurnFileAt (cs : List Char) : Option (List Char) :=
  match parseLit ['[', 't', 'u', 'r', 'n'] cs with
  | none => none
  | some cs1 =>
    let ds := cs1.takeWhile Char.isDigit
    let cs2 := cs1.dropWhile Char.isDigit
    if ds.isEmpty then none
    else
      match parseLit ['f', 'i', 'l', 'e'] cs2 with
      | none => none
      | some cs3 =>
        let ds2 := cs3.takeWhile Char.isDigit
        let cs4 := cs3.dropWhile Char.isDigit
        if ds2.isEmpty then none
        else
          match parseLit [']'] cs4 with
          | none => none
          | some cs5 => some cs5

/-- `_TURN_FILE_RE.sub("", s)`: left-to-right single-pass removal of
`[turnNfileM]` tokens.  Fuel-indexed for structural recursion. -/
def stripTFFuel : Nat → List Char → List Char
  | 0, cs => cs
  | _ + 1, [] => []
  | fuel + 1, c :: rest =>
    match matchTurnFileAt (c :: rest) with
    | some rest' => stripTFFuel fuel rest'
    | none => c :: stripTFFuel fuel rest

def stripTurnFile (cs : List Char) : List Char :=
  stripTFFuel cs.length cs

/-- `sanitize_text` (src/chatbot.py): remove citation-wrapper spans, remove
`[turnNfileM]` tokens, delete zero-width characters, strip.  A falsy (empty)
input is returned unchanged. -/
def sanitize_text (s : String) : String :=
  if s = "" then s
  else
    let s1 := stripCW s.data
    let s2 := stripTurnFile s1
    let s3 := s2.filter (fun c => !isZeroWidth c)
    String.mk (pyStripL s3)

/-- `true` iff no `citeOpen` in the list is followed (strictly later) by a
`citeClose`, i.e. the list contains no wrapped citation span. -/
def noSpanB : List Char → Bool
  | [] => true
  | c :: cs => (if c = citeOpen then !(cs.contains citeClose) else true) && noSpanB cs

/-! ### `inject_inline_citations` (src/chatbot.py lines 248-296)

The evidence dicts flowing through the injector and the renderer are the
dicts built by `extract_sources_and_quotes` in the normal pipeline:
`{"filename": ..., "quote": ...}` for file evidence and
`{"title": ..., "url": ..., "snippet": ...}` for web evidence, with string
values.  `SrcDict` models exactly those two dict shapes; `SrcDict.get`
models Python `dict.get` (returning `none` for an absent key, e.g. the
renderer's `src.get("text")` fallback on a file dict). -/

inductive SrcDict : Type where
  | fileD (filename : String) (quote : String)
  | webD (title : String) (url : String) (snippet : String)
deriving DecidableEq

def SrcDict.get : SrcDict → String → Option String
  | .fileD fn _, "filename" => some fn
  | .fileD _ q, "quote" => some q
  | .webD t _ _, "title" => some t
  | .webD _ u _, "url" => some u
  | .webD _ _ sn, "snippet" => some sn
  | _, _ => none

/-- Python `x or y` for `x : str | None` and `y : str`: `y` when `x` is
`None` or empty, else `x`. -/
def pyOrD (x : Option String) (y : String) : String :=
  match x with
  | some s => if s = "" then y else s
  | none => y

/-- Python `x or y` for `x y : str | None`. -/
def pyOrO (x y : Option String) : Option String :=
  match x with
  | some s => if s = "" then y else some s
  | none => y

/-- The nested `is_heading` of `inject_inline_citations`:
`l = line.strip(); l.startswith("#") or l.endswith(":") or l.endswith("：")`
(the last colon is the full-width U+FF1A). -/
def is_heading (line : String) : Bool :=
  let l := pyStripL line.data
  l.head? = some '#' || l.getLast? = some ':' || l.getLast? = some '：'

/-- The combined reference sequence of `inject_inline_citations`: tagged
`files_list` entries, then tagged `web_list` entries, sliced to `max_refs`. -/
def mkCombined (files_list web_list : List SrcDict) (max_refs : Nat) :
    List (String × SrcDict) :=
  (files_list.map (fun f => ("file", f)) ++ web_list.map (fun w => ("web", w))).take max_refs

/-- Default used only to give `List.getD` a value; the injector's guard
`ref_idx <= len(combined)` keeps every actual access in bounds. -/
def dfltPair : String × SrcDict := ("", .fileD "" "")

/-- The line loop of `inject_inline_citations`: blank lines (by `strip`) are
emitted verbatim; a non-blank non-heading line receives the next marker while
references remain; all other lines are emitted unchanged.  Returns the output
lines and the `refs_mapping` entries `(n, source_dict, source_type)`. -/
def injectLoop (combined : List (String × SrcDict)) :
    Nat → List String → List String × List (Nat × SrcDict × String)
  | _, [] => ([], [])
  | refIdx, line :: rest =>
    if pyStripL line.data = [] then
      let r := injectLoop combined refIdx rest
      (line :: r.1, r.2)
    else if refIdx ≤ combined.length && !is_heading line then
      let pr := combined.getD (refIdx - 1) dfltPair
      let r := injectLoop combined (refIdx + 1) rest
      ((line ++ " [" ++ toString refIdx ++ "]") :: r.1, (refIdx, pr.2, pr.1) :: r.2)
    else
      let r := injectLoop combined refIdx rest
      (line :: r.1, r.2)

/-- `inject_inline_citations` (src/chatbot.py lines 248-296); the Python
signature gives `max_refs` the default value 20, which the turn handler uses. -/
def inject_inline_citations (answer_text : String)
    (files_list web_list : List SrcDict) (max_refs : Nat) :
    String × List (Nat × SrcDict × String) :=
  if answer_text = "" then (answer_text, [])
  else
    let lines := pySplitlines answer_text
    let combined := mkCombined files_list web_list max_refs
    let r := injectLoop combined 1 lines
    (joinNL r.1, r.2)

/-- The number of lines eligible for a marker: non-blank and not a heading
(spec §4.2). -/
def eligibleCount (lines : List String) : Nat :=
  (lines.filter (fun l => !(pyStripL l.data).isEmpty && !is_heading l)).length

/-! ### References rendering (src/chatbot.py lines 570-591) -/

/-- One line of the rendered references block (the body of the
`for n, src, src_type in refs_mapping` loop). -/
def renderRefLine (entry : Nat × SrcDict × String) : String :=
  let n := entry.1
  let src := entry.2.1
  let src_type := entry.2.2
  if src_type = "file" then
    let fn := pyStrip (pyOrD (src.get "filename") "file")
    let quote := pyStrip (pyOrD (pyOrO (src.get "quote") (src.get "text")) "")
    "[" ++ toString n ++ "] **" ++ fn ++ "** — " ++ quote
  else
    let title := pyOrD (src.get "title") "Source"
    let url := pyOrD (src.get "url") ""
    let snippet := pyOrD (src.get "snippet") ""
    if url ≠ "" then
      "[" ++ toString n ++ "] [" ++ title ++ "](" ++ url ++ ")" ++
        (if snippet ≠ "" then " — " ++ snippet else "")
    else
      "[" ++ toString n ++ "] " ++ title ++
        (if snippet ≠ "" then " — " ++ snippet else "")

/-- Lowercase spelling used by the references-heading regex. -/
def refWord : List Char := ['r', 'e', 'f', 'e', 'r', 'e', 'n', 'c', 'e', 's']

/-- Case-insensitive literal match (Python `re.IGNORECASE`, ASCII letters). -/
def parseLitCI : List Char → List Char → Option (List Char)
  | [], cs => some cs
  | _ :: _, [] => none
  | l :: ls, c :: cs => if c.toLower = l then parseLitCI ls cs else none

/-- Try the pattern `\s*references\s*:` (case-insensitive) at this position.
The greedy `\s*` runs are maximal whitespace runs since both `r` and `:` are
non-whitespace. -/
def matchRefAt (cs : List Char) : Bool :=
  match parseLitCI refWord (cs.dropWhile isSpacePy) with
  | none => false
  | some cs2 => (cs2.dropWhile isSpacePy).head? = some ':'

/-- Scan the positions right after each `'\n'` for the heading pattern. -/
def scanRefAfterNL : List Char → Bool
  | [] => false
  | c :: rest => (c = '\n' && matchRefAt rest) || scanRefAfterNL rest

/-- `re.search(r"(?im)^\s*references\s*:", s)`: with `re.M`, `^` matches at
the start of the string and right after each `'\n'`. -/
def hasRefHeading (s : String) : Bool :=
  matchRefAt s.data || scanRefAfterNL s.data

/-- The references placement block (src/chatbot.py lines 570-591): when the
mapping is non-empty, render its lines and append them — after a blank line
if the answer already contains a references heading, otherwise under a fresh
`**References:**` heading. -/
def render_references (answer : String) (refs_mapping : List (Nat × SrcDict × String)) :
    String :=
  if refs_mapping.isEmpty then answer
  else
    let refs_lines := refs_mapping.map renderRefLine
    if hasRefHeading answer then answer ++ "\n\n" ++ joinNL refs_lines
    else answer ++ "\n\n**References:**\n" ++ joinNL refs_lines

/-- Steps 2-3 of the turn handler (src/chatbot.py lines 563-591): inject
inline citations, then append the matching references section. -/
def apply_citations (answer : String) (files_list web_list : List SrcDict) : String :=
  let r := inject_inline_citations answer files_list web_list 20
  render_references r.1 r.2

/-! ### `extract_sources_and_quotes` (src/chatbot.py lines 160-246)

The response object is duck-typed Python data.  `PyVal` models the value
shapes the extraction code inspects: `None`, strings, lists, dicts (with
string keys, as the code only ever uses string keys), and attribute-bearing
objects (accessed through `getattr`).  The model is a tree: two distinct
`vobj` nodes stand for distinct Python objects, so object equality (identity)
is always false and object hashing (by id) never fails. -/

inductive PyVal : Type where
  | vnone : PyVal
  | vstr (s : String) : PyVal
  | vlist (items : List PyVal) : PyVal
  | vdict (entries : List (String × PyVal)) : PyVal
  | vobj (attrs : List (String × PyVal)) : PyVal

/-- Python truthiness for the modelled values. -/
def pyTruthy : PyVal → Bool
  | .vnone => false
  | .vstr s => s ≠ ""
  | .vlist items => !items.isEmpty
  | .vdict entries => !entries.isEmpty
  | .vobj _ => true

/-- Python `==` restricted to the values that can reach an equality test in
`extract_sources_and_quotes`: the dedup membership test hashes its argument
first, so containers (unhashable) raise before any comparison, and distinct
`vobj` nodes of an unshared tree are distinct Python objects, never equal.
The comparisons against string literals in the block walk also only
distinguish strings from everything else. -/
def pyEq : PyVal → PyVal → Bool
  | .vnone, .vnone => true
  | .vstr a, .vstr b => a = b
  | _, _ => false

/-- Python hashability: `None` and `str` are hashable, `list` and `dict` are
not, objects are hashable by id. -/
def pyHashable : PyVal → Bool
  | .vnone => true
  | .vstr _ => true
  | .vlist _ => false
  | .vdict _ => false
  | .vobj _ => true

/-- `getattr(v, name, dflt)`: only objects carry attributes in the model
(none of the attribute names used by the code exists on `None`, `str`,
`list` or `dict`). -/
def getattrD (v : PyVal) (name : String) (dflt : PyVal) : PyVal :=
  match v with
  | .vobj attrs => (attrs.lookup name).getD dflt
  | _ => dflt

/-- `v.get(key)` for a dict (`None` when absent); the code only calls `.get`
after an `isinstance(v, dict)` check or on dicts it built itself. -/
def dget (v : PyVal) (key : String) : PyVal :=
  match v with
  | .vdict entries => (entries.lookup key).getD .vnone
  | _ => .vnone

/-- `key in v` for a dict. -/
def hasKey (v : PyVal) (key : String) : Bool :=
  match v with
  | .vdict entries => (entries.lookup key).isSome
  | _ => false

def PyVal.isDict : PyVal → Bool
  | .vdict _ => true
  | _ => false

def PyVal.isList : PyVal → Bool
  | .vlist _ => true
  | _ => false

/-- Python `x or y` on modelled values. -/
def pyOrV (x y : PyVal) : PyVal :=
  if pyTruthy x then x else y

/-- `for x in v`: lists yield their items, strings their characters (as
1-character strings), dicts their keys; `None` and plain objects are not
iterable (`TypeError`). -/
def pyIter : PyVal → Except Unit (List PyVal)
  | .vlist items => .ok items
  | .vstr s => .ok (s.data.map (fun c => .vstr (String.mk [c])))
  | .vdict entries => .ok (entries.map (fun e => .vstr e.1))
  | .vnone => .error ()
  | .vobj _ => .error ()

/-- `for x in v[:10]`: lists and strings support slicing; `None`, dicts and
objects raise `TypeError` on `v[:10]`. -/
def sliceIter10 : PyVal → Except Unit (List PyVal)
  | .vlist items => .ok (items.take 10)
  | .vstr s => .ok ((s.data.take 10).map (fun c => .vstr (String.mk [c])))
  | .vnone => .error ()
  | .vdict _ => .error ()
  | .vobj _ => .error ()

/-- A web evidence dict `{"title": ..., "url": ..., "snippet": ...}` as built
by the extraction code (values of any modelled shape). -/
structure WebEntry : Type where
  title : PyVal
  url : PyVal
  snippet : PyVal

/-- A file evidence dict `{"filename": ..., "quote": ...}` as built by the
extraction code. -/
structure FileEntry : Type where
  filename : PyVal
  quote : PyVal

structure ExtractAcc : Type where
  web : List WebEntry
  files : List FileEntry

/-- Body of `for r in items[:10]` in the `web_search` branch. -/
def webItemStep (acc : List WebEntry) (r : PyVal) : List WebEntry :=
  if r.isDict then
    let title := pyOrV (dget r "title") (.vstr "Source")
    let url := pyOrV (pyOrV (dget r "url") (dget r "link")) (.vstr "")
    let snippet := pyOrV (dget r "snippet") (.vstr "")
    if pyTruthy url then acc ++ [⟨title, url, snippet⟩] else acc
  else acc

/-- Body of `for r in items[:10]` in the `file_search` branch. -/
def fileItemStep (acc : List FileEntry) (r : PyVal) : List FileEntry :=
  let qf :=
    if r.isDict then
      let q := pyOrV (pyOrV (dget r "quote") (dget r "text")) (.vstr "")
      let fm := pyOrV (dget r "file") (.vdict [])
      let fn :=
        if fm.isDict then pyOrV (pyOrV (dget fm "filename") (dget fm "name")) (.vstr "file")
        else .vstr "file"
      (q, fn)
    else ((.vstr "" : PyVal), (.vstr "file" : PyVal))
  if pyTruthy qf.1 then acc ++ [⟨qf.2, qf.1⟩] else acc

/-- `items` as computed in either tool branch:
`items = []`, overwritten from `data["results"]` for a dict with that key, or
by `data` itself for a list. -/
def toolItems (data : PyVal) : PyVal :=
  if data.isDict && hasKey data "results" then dget data "results"
  else if data.isList then data
  else .vlist []

/-- Body of `for a in anns` in the `output_text` branch. -/
def annStep (acc : ExtractAcc) (a : PyVal) : ExtractAcc :=
  if a.isDict then
    let acc1 :=
      if pyEq (dget a "type") (.vstr "web_citation") then
        { acc with
          web := acc.web ++ [⟨pyOrV (dget a "title") (.vstr "Source"),
                             pyOrV (dget a "url") (.vstr ""),
                             pyOrV (dget a "snippet") (.vstr "")⟩] }
      else acc
    if pyEq (dget a "type") (.vstr "file_citation") then
      let file := pyOrV (dget a "file") (.vdict [])
      let filename := if file.isDict then dget file "filename" else .vstr "file"
      let quote := pyOrV (dget a "quote") (.vstr "")
      if pyTruthy quote then
        { acc1 with files := acc1.files ++ [⟨pyOrV filename (.vstr "file"), quote⟩] }
      else acc1
    else acc1
  else acc

/-- Process one output block; the `Bool` is `true` when the block body raised
(a `TypeError` from a failed slice or iteration), which aborts the whole
`try` body with the evidence gathered so far. -/
def processBlock (acc : ExtractAcc) (block : PyVal) : ExtractAcc × Bool :=
  let step1 : ExtractAcc × Bool :=
    if pyEq (getattrD block "type" (.vstr "")) (.vstr "tool_result") then
      let tool_name := pyOrV (getattrD block "tool_name" .vnone) (getattrD block "name" .vnone)
      let data := getattrD block "output" .vnone
      let stepW : ExtractAcc × Bool :=
        if pyEq tool_name (.vstr "web_search") && pyTruthy data then
          match sliceIter10 (toolItems data) with
          | .error _ => (acc, true)
          | .ok rs => ({ acc with web := rs.foldl webItemStep acc.web }, false)
        else (acc, false)
      if stepW.2 then stepW
      else
        let acc := stepW.1
        if pyEq tool_name (.vstr "file_search") && pyTruthy data then
          match sliceIter10 (toolItems data) with
          | .error _ => (acc, true)
          | .ok rs => ({ acc with files := rs.foldl fileItemStep acc.files }, false)
        else (acc, false)
    else (acc, false)
  if step1.2 then step1
  else
    let acc := step1.1
    if pyEq (getattrD block "type" (.vstr "")) (.vstr "output_text") then
      let anns := pyOrV (getattrD block "annotations" .vnone) (.vlist [])
      match pyIter anns with
      | .error _ => (acc, true)
      | .ok as_ => (as_.foldl annStep acc, false)
    else (acc, false)

/-- The block loop; a raise aborts the loop keeping the evidence gathered so
far (the surrounding `try/except Exception: pass`). -/
def runBlocks : ExtractAcc → List PyVal → ExtractAcc
  | acc, [] => acc
  | acc, b :: bs =>
    let r := processBlock acc b
    if r.2 then r.1 else runBlocks r.1 bs

/-- The whole `try` body of `extract_sources_and_quotes`:
`for block in getattr(final_response, "output", []) or []` with every failure
absorbed. -/
def tryExtract (resp : PyVal) : ExtractAcc :=
  match pyIter (pyOrV (getattrD resp "output" (.vlist [])) (.vlist [])) with
  | .error _ => ⟨[], []⟩
  | .ok blocks => runBlocks ⟨[], []⟩ blocks

/-- The web dedup loop.  `u = s.get("url") or ""`; a falsy `u` short-circuits
`if u and u not in seen_urls`, otherwise the membership test hashes `u` and
raises `TypeError` when `u` is unhashable — this loop runs OUTSIDE the
`try/except`, so that error propagates to the caller. -/
def dedupWebGo (seen : List PyVal) (acc : List WebEntry) :
    List WebEntry → Except Unit (List WebEntry)
  | [] => .ok acc
  | e :: rest =>
    let u := if pyTruthy e.url then e.url else .vstr ""
    if pyTruthy u then
      if !pyHashable u then .error ()
      else if seen.any (fun v => pyEq u v) then dedupWebGo seen acc rest
      else dedupWebGo (u :: seen) (acc ++ [e]) rest
    else dedupWebGo seen acc rest

/-- The file dedup loop, keyed by the tuple `(filename, quote)`; hashing the
tuple hashes both components. -/
def dedupFilesGo (seen : List (PyVal × PyVal)) (acc : List FileEntry) :
    List FileEntry → Except Unit (List FileEntry)
  | [] => .ok acc
  | e :: rest =>
    if pyTruthy e.quote then
      if !(pyHashable e.filename && pyHashable e.quote) then .error ()
      else if seen.any (fun kv => pyEq e.filename kv.1 && pyEq e.quote kv.2) then
        dedupFilesGo seen acc rest
      else dedupFilesGo ((e.filename, e.quote) :: seen) (acc ++ [e]) rest
    else dedupFilesGo seen acc rest

/-- `extract_sources_and_quotes` (src/chatbot.py lines 160-246): best-effort
block walk (failures absorbed), then URL / (filename, quote) dedup, then the
`[:10]` caps.  The dedup loops are outside the `try`, so they can raise. -/
def extract_sources_and_quotes (resp : PyVal) :
    Except Unit (List WebEntry × List FileEntry) :=
  let acc := tryExtract resp
  match dedupWebGo [] [] acc.web with
  | .error e => .error e
  | .ok dw =>
    match dedupFilesGo [] [] acc.files with
    | .error e => .error e
    | .ok df => .ok (dw.take 10, df.take 10)

/-- Specification function for the spec's "deduplicate by URL, preserving
first-seen order" (spec §4.1): keep exactly the first occurrence of each
truthy URL, in input order, dropping entries with a falsy URL; `seen` holds
the URLs already kept.  The code's `dedupWebGo` is proved to compute exactly
this whenever it returns. -/
def firstSeenDedupWeb (seen : List PyVal) : List WebEntry → List WebEntry
  | [] => []
  | e :: rest =>
    let u := if pyTruthy e.url then e.url else .vstr ""
    if pyTruthy u then
      if seen.any (fun v => pyEq u v) then firstSeenDedupWeb seen rest
      else e :: firstSeenDedupWeb (u :: seen) rest
    else firstSeenDedupWeb seen rest

/-- Specification function for the spec's "deduplicate by the
`(filename, quote)` pair, preserving first-seen order" (spec §4.1). -/
def firstSeenDedupFiles (seen : List (PyVal × PyVal)) : List FileEntry → List FileEntry
  | [] => []
  | e :: rest =>
    if pyTruthy e.quote then
      if seen.any (fun kv => pyEq e.filename kv.1 && pyEq e.quote kv.2) then
        firstSeenDedupFiles seen rest
      else e :: firstSeenDedupFiles ((e.filename, e.quote) :: seen) rest
    else firstSeenDedupFiles seen rest

/-! ## Helper lemmas: the injector loop -/

theorem injectLoop_length (combined : List (String × SrcDict)) :
    ∀ (lines : List String) (k : Nat),
      ((injectLoop combined k lines).1).length = lines.length := by
  intro lines
  induction lines with
  | nil => intro k; rfl
  | cons line rest ih =>
    intro k
    by_cases h1 : pyStripL line.data = []
    · simp [injectLoop, h1, ih]
    · by_cases h2 : (decide (k ≤ combined.length) && !is_heading line) = true
      · simp [injectLoop, h1, h2, ih]
      · simp [injectLoop, h1, h2, ih]

theorem injectLoop_mapping (combined : List (String × SrcDict)) :
    ∀ (lines : List String) (k : Nat),
      (injectLoop combined k lines).2 =
        (List.range' k ((injectLoop combined k lines).2).length).map
          (fun j => (j, (combined.getD (j - 1) dfltPair).2, (combined.getD (j - 1) dfltPair).1)) ∧
      ((injectLoop combined k lines).2).length ≤ eligibleCount lines ∧
      ((injectLoop combined k lines).2).length ≤ combined.length + 1 - k := by
  intro lines
  induction lines with
  | nil => intro k; exact ⟨rfl, Nat.le_refl 0, Nat.zero_le _⟩
  | cons line rest ih =>
    intro k
    by_cases h1 : pyStripL line.data = []
    · have hcount : eligibleCount (line :: rest) = eligibleCount rest := by
        simp [eligibleCount, List.filter_cons, h1]
      simp only [injectLoop, if_pos h1]
      exact ⟨(ih k).1, hcount ▸ (ih k).2.1, (ih k).2.2⟩
    · by_cases h2 : (decide (k ≤ combined.length) && !is_heading line) = true
      · have hk : k ≤ combined.length := by
          have := h2
          simp only [Bool.and_eq_true, decide_eq_true_eq] at this
          exact this.1
        have hcount : eligibleCount (line :: rest) = eligibleCount rest + 1 := by
          have hh : is_heading line = false := by
            have := h2
            simp only [Bool.and_eq_true, Bool.not_eq_eq_eq_not, Bool.not_true,
              decide_eq_true_eq] at this
            exact this.2
          simp [eligibleCount, List.filter_cons, h1, hh]
        simp only [injectLoop, if_neg h1, if_pos h2]
        refine ⟨?_, ?_, ?_⟩
        · have ihm := (ih (k + 1)).1
          simp only [List.length_cons, List.range'_succ, List.map_cons]
          exact congrArg _ ihm
        · have := (ih (k + 1)).2.1
          simp only [List.length_cons, hcount]
          omega
        · have := (ih (k + 1)).2.2
          simp only [List.length_cons]
          omega
      · have hcount : eligibleCount rest ≤ eligibleCount (line :: rest) := by
          simp only [eligibleCount, List.filter_cons]
          split <;> simp
        simp only [injectLoop, if_neg h1, if_neg h2]
        exact ⟨(ih k).1, Nat.le_trans (ih k).2.1 hcount, (ih k).2.2⟩

theorem injectLoop_outs_pointwise (combined : List (String × SrcDict)) :
    ∀ (lines : List String) (k i : Nat) (line : String),
      lines[i]? = some line →
      (((injectLoop combined k lines).1)[i]? = some line ∨
       ∃ n : Nat, ((injectLoop combined k lines).1)[i]? =
         some (line ++ " [" ++ toString n ++ "]")) := by
  intro lines
  induction lines with
  | nil => intro k i line h; simp at h
  | cons l rest ih =>
    intro k i line h
    by_cases h1 : pyStripL l.data = []
    · simp only [injectLoop, if_pos h1]
      cases i with
      | zero =>
        simp only [List.getElem?_cons_zero, Option.some.injEq] at h
        subst h; left; simp
      | succ j =>
        simp only [List.getElem?_cons_succ] at h ⊢
        exact ih k j line h
    · by_cases h2 : (decide (k ≤ combined.length) && !is_heading l) = true
      · simp only [injectLoop, if_neg h1, if_pos h2]
        cases i with
        | zero =>
          simp only [List.getElem?_cons_zero, Option.some.injEq] at h
          subst h; right; exact ⟨k, by simp⟩
        | succ j =>
          simp only [List.getElem?_cons_succ] at h ⊢
          exact ih (k + 1) j line h
      · simp only [injectLoop, if_neg h1, if_neg h2]
        cases i with
        | zero =>
          simp only [List.getElem?_cons_zero, Option.some.injEq] at h
          subst h; left; simp
        | succ j =>
          simp only [List.getElem?_cons_succ] at h ⊢
          exact ih k j line h

theorem injectLoop_ineligible_verbatim (combined : List (String × SrcDict)) :
    ∀ (lines : List String) (k i : Nat) (line : String),
      lines[i]? = some line →
      (is_heading line = true ∨ pyStripL line.data = []) →
      ((injectLoop combined k lines).1)[i]? = some line := by
  intro lines
  induction lines with
  | nil => intro k i line h _; simp at h
  | cons l rest ih =>
    intro k i line h hline
    by_cases h1 : pyStripL l.data = []
    · simp only [injectLoop, if_pos h1]
      cases i with
      | zero =>
        simp only [List.getElem?_cons_zero, Option.some.injEq] at h
        subst h; simp
      | succ j =>
        simp only [List.getElem?_cons_succ] at h ⊢
        exact ih k j line h hline
    · by_cases h2 : (decide (k ≤ combined.length) && !is_heading l) = true
      · cases i with
        | zero =>
          simp only [List.getElem?_cons_zero, Option.some.injEq] at h
          subst h
          rcases hline with hh | hb
          · exfalso
            simp only [Bool.and_eq_true, Bool.not_eq_eq_eq_not, Bool.not_true,
              decide_eq_true_eq] at h2
            exact absurd hh (by simp [h2.2])
          · exact absurd hb h1
        | succ j =>
          simp only [injectLoop, if_neg h1, if_pos h2]
          simp only [List.getElem?_cons_succ] at h ⊢
          exact ih (k + 1) j line h hline
      · simp only [injectLoop, if_neg h1, if_neg h2]
        cases i with
        | zero =>
          simp only [List.getElem?_cons_zero, Option.some.injEq] at h
          subst h; simp
        | succ j =>
          simp only [List.getElem?_cons_succ] at h ⊢
          exact ih k j line h hline

theorem injectLoop_nil_combined :
    ∀ (lines : List String) (k : Nat), 1 ≤ k →
      injectLoop [] k lines = (lines, []) := by
  intro lines
  induction lines with
  | nil => intro k _; rfl
  | cons line rest ih =>
    intro k hk
    have hk0 : ¬ k = 0 := by omega
    by_cases h1 : pyStripL line.data = []
    · simp [injectLoop, h1, ih k hk]
    · simp [injectLoop, h1, hk0, ih k hk]

theorem inject_eq_loop (text : String) (fs ws : List SrcDict) (m : Nat) :
    inject_inline_citations text fs ws m =
      (joinNL ((injectLoop (mkCombined fs ws m) 1 (pySplitlines text)).1),
       (injectLoop (mkCombined fs ws m) 1 (pySplitlines text)).2) := by
  by_cases h : text = ""
  · subst h; rfl
  · simp [inject_inline_citations, h]

/-! ## Claim theorems: the injector -/

/-- **C1**: for every answer text and evidence lists, the markers recorded by
`inject_inline_citations` are exactly `1..k` in order, with no gaps or
repeats, for some `k ≤ min(eligible_line_count, reference_count)`, and the
returned `refs_mapping` pairs marker `i` with the `i`-th entry of the
combined files-then-web reference sequence. -/
theorem C1_inject_marker_correspondence (text : String) (fs ws : List SrcDict) (m : Nat) :
    ((inject_inline_citations text fs ws m).2).map (fun e => e.1) =
      List.range' 1 ((inject_inline_citations text fs ws m).2).length ∧
    ((inject_inline_citations text fs ws m).2).length ≤
      Nat.min (eligibleCount (pySplitlines text)) (mkCombined fs ws m).length ∧
    (∀ i, i < ((inject_inline_citations text fs ws m).2).length →
      ((inject_inline_citations text fs ws m).2)[i]? =
        some (i + 1, ((mkCombined fs ws m).getD i dfltPair).2,
          ((mkCombined fs ws m).getD i dfltPair).1)) := by
  have hmap := injectLoop_mapping (mkCombined fs ws m) (pySplitlines text) 1
  rw [inject_eq_loop]
  dsimp only
  refine ⟨?_, ?_, ?_⟩
  · conv_lhs => rw [hmap.1]
    rw [List.map_map]
    exact List.map_id' _
  · refine Nat.le_min.mpr ⟨hmap.2.1, ?_⟩
    have := hmap.2.2
    omega
  · intro i hi
    conv_lhs => rw [hmap.1]
    rw [List.getElem?_map, List.getElem?_range' 1 1 (by simpa using hi)]
    have h1 : 1 + 1 * i = i + 1 := by omega
    rw [h1]
    simp [Nat.add_sub_cancel]

/-- **C3**: for every input text and reference list, a line whose stripped
form starts with `#` or ends with an ASCII or full-width colon is emitted
verbatim (it never receives an injected marker), and blank lines are emitted
verbatim, regardless of the line's position. -/
theorem C3_heading_blank_verbatim (text : String) (fs ws : List SrcDict) (m : Nat) :
    (inject_inline_citations text fs ws m).1 =
      joinNL ((injectLoop (mkCombined fs ws m) 1 (pySplitlines text)).1) ∧
    ∀ (i : Nat) (line : String), (pySplitlines text)[i]? = some line →
      (is_heading line = true ∨ pyStripL line.data = []) →
      ((injectLoop (mkCombined fs ws m) 1 (pySplitlines text)).1)[i]? = some line := by
  constructor
  · rw [inject_eq_loop]
  · intro i line h hline
    exact injectLoop_ineligible_verbatim _ _ 1 i line h hline

/-- **C8**: `inject_inline_citations` is deterministic — two invocations on
equal answer text, equal file and web evidence lists, and equal `max_refs`
produce identical output text and identical marker mappings (the function
depends on nothing but its arguments). -/
theorem C8_inject_deterministic (t : String) (fs ws : List SrcDict) (m : Nat)
    (t' : String) (fs' ws' : List SrcDict) (m' : Nat)
    (ht : t = t') (hf : fs = fs') (hw : ws = ws') (hm : m = m') :
    inject_inline_citations t fs ws m = inject_inline_citations t' fs' ws' m' := by
  subst ht; subst hf; subst hw; subst hm; rfl

/-- **C9 (amended)**: the returned text is the `"\n"`-join of a line list of
the same length and order as the input's `splitlines`, where each line is the
corresponding input line either unchanged or with exactly the suffix
`" [n]"` appended.  (The claim's re-splitting form fails: joining does not
restore a trailing line break, see the counterexample.) -/
theorem C9_inject_line_structure (text : String) (fs ws : List SrcDict) (m : Nat) :
    (inject_inline_citations text fs ws m).1 =
      joinNL ((injectLoop (mkCombined fs ws m) 1 (pySplitlines text)).1) ∧
    ((injectLoop (mkCombined fs ws m) 1 (pySplitlines text)).1).length =
      (pySplitlines text).length ∧
    ∀ (i : Nat) (line : String), (pySplitlines text)[i]? = some line →
      (((injectLoop (mkCombined fs ws m) 1 (pySplitlines text)).1)[i]? = some line ∨
       ∃ n : Nat, ((injectLoop (mkCombined fs ws m) 1 (pySplitlines text)).1)[i]? =
         some (line ++ " [" ++ toString n ++ "]")) := by
  refine ⟨?_, ?_, ?_⟩
  · rw [inject_eq_loop]
  · exact injectLoop_length _ _ 1
  · intro i line h
    exact injectLoop_outs_pointwise _ _ 1 i line h

/-- **C9 (counterexample)**: for the non-empty answer `"a\n\n"` (two input
lines: `"a"` and `""`), the returned text `"a\n"` splits into one line, not
two — the line count is not preserved under re-splitting. -/
theorem C9_resplit_linecount_counterexample :
    (pySplitlines ((inject_inline_citations "a\n\n" [] [] 20).1)).length ≠
      (pySplitlines "a\n\n").length := by decide

/-- **C4 (amended)**: an empty answer is returned exactly unchanged with an
empty mapping and no references section; with both evidence lists empty the
mapping is empty, no references section is appended, and the output is the
answer's lines rejoined with `"\n"` — the original text itself except that a
trailing line break is dropped and non-`"\n"` separators are normalised (see
the counterexample).  Total functions: no exception is possible. -/
theorem C4_empty_inputs (text : String) (fs ws : List SrcDict) :
    (inject_inline_citations "" fs ws 20 = ("", []) ∧ apply_citations "" fs ws = "") ∧
    ((inject_inline_citations text [] [] 20).2 = [] ∧
     apply_citations text [] [] = if text = "" then text else joinNL (pySplitlines text)) := by
  refine ⟨⟨rfl, rfl⟩, ?_⟩
  by_cases h : text = ""
  · subst h; exact ⟨rfl, rfl⟩
  · have hloop : injectLoop (mkCombined [] [] 20) 1 (pySplitlines text) =
        (pySplitlines text, []) := injectLoop_nil_combined (pySplitlines text) 1 (Nat.le_refl 1)
    have hinj := inject_eq_loop text [] [] 20
    rw [hloop] at hinj
    constructor
    · rw [hinj]
    · rw [if_neg h]
      show render_references (inject_inline_citations text [] [] 20).1
        (inject_inline_citations text [] [] 20).2 = joinNL (pySplitlines text)
      rw [hinj]
      rfl

/-- **C4 (counterexample)**: for the answer `"a\n"` with no evidence, the
pipeline returns `"a"`, not the original text — a trailing newline is lost in
the split/join round trip. -/
theorem C4_trailing_newline_counterexample :
    apply_citations "a\n" [] [] ≠ "a\n" := by decide

/-- Witness for C1 at a concrete input. -/
theorem C1_witness :
    ((inject_inline_citations "Point one.\nNotes:" [.fileD "deck.pdf" "SMB-first GTM"]
        [.webD "TechCrunch" "http://tc.example/x" "usage pricing"] 20).2).map (fun e => e.1) =
      List.range' 1 ((inject_inline_citations "Point one.\nNotes:" [.fileD "deck.pdf" "SMB-first GTM"]
        [.webD "TechCrunch" "http://tc.example/x" "usage pricing"] 20).2).length ∧
    ((inject_inline_citations "Point one.\nNotes:" [.fileD "deck.pdf" "SMB-first GTM"]
        [.webD "TechCrunch" "http://tc.example/x" "usage pricing"] 20).2).length ≤
      Nat.min (eligibleCount (pySplitlines "Point one.\nNotes:"))
        (mkCombined [.fileD "deck.pdf" "SMB-first GTM"]
          [.webD "TechCrunch" "http://tc.example/x" "usage pricing"] 20).length ∧
    (∀ i, i < ((inject_inline_citations "Point one.\nNotes:" [.fileD "deck.pdf" "SMB-first GTM"]
        [.webD "TechCrunch" "http://tc.example/x" "usage pricing"] 20).2).length →
      ((inject_inline_citations "Point one.\nNotes:" [.fileD "deck.pdf" "SMB-first GTM"]
        [.webD "TechCrunch" "http://tc.example/x" "usage pricing"] 20).2)[i]? =
        some (i + 1, ((mkCombined [.fileD "deck.pdf" "SMB-first GTM"]
            [.webD "TechCrunch" "http://tc.example/x" "usage pricing"] 20).getD i dfltPair).2,
          ((mkCombined [.fileD "deck.pdf" "SMB-first GTM"]
            [.webD "TechCrunch" "http://tc.example/x" "usage pricing"] 20).getD i dfltPair).1)) :=
  C1_inject_marker_correspondence "Point one.\nNotes:" [.fileD "deck.pdf" "SMB-first GTM"]
    [.webD "TechCrunch" "http://tc.example/x" "usage pricing"] 20

/-- Witness for C3 at a concrete input. -/
theorem C3_witness :
    (inject_inline_citations "Intro:\nBody." [.fileD "a.pdf" "q"] [] 20).1 =
      joinNL ((injectLoop (mkCombined [.fileD "a.pdf" "q"] [] 20) 1
        (pySplitlines "Intro:\nBody.")).1) ∧
    ∀ (i : Nat) (line : String), (pySplitlines "Intro:\nBody.")[i]? = some line →
      (is_heading line = true ∨ pyStripL line.data = []) →
      ((injectLoop (mkCombined [.fileD "a.pdf" "q"] [] 20) 1
        (pySplitlines "Intro:\nBody.")).1)[i]? = some line :=
  C3_heading_blank_verbatim "Intro:\nBody." [.fileD "a.pdf" "q"] [] 20

/-- Witness for C8 at a concrete input. -/
theorem C8_witness :
    inject_inline_citations "Hi." [.fileD "a.pdf" "q"] [] 20 =
      inject_inline_citations "Hi." [.fileD "a.pdf" "q"] [] 20 :=
  C8_inject_deterministic "Hi." [.fileD "a.pdf" "q"] [] 20
    "Hi." [.fileD "a.pdf" "q"] [] 20 rfl rfl rfl rfl

/-- Witness for C9 at a concrete input. -/
theorem C9_witness :
    (inject_inline_citations "Alpha.\n\nBeta." [.fileD "a.pdf" "q"] [] 20).1 =
      joinNL ((injectLoop (mkCombined [.fileD "a.pdf" "q"] [] 20) 1
        (pySplitlines "Alpha.\n\nBeta.")).1) ∧
    ((injectLoop (mkCombined [.fileD "a.pdf" "q"] [] 20) 1
        (pySplitlines "Alpha.\n\nBeta.")).1).length =
      (pySplitlines "Alpha.\n\nBeta.").length ∧
    ∀ (i : Nat) (line : String), (pySplitlines "Alpha.\n\nBeta.")[i]? = some line →
      (((injectLoop (mkCombined [.fileD "a.pdf" "q"] [] 20) 1
          (pySplitlines "Alpha.\n\nBeta.")).1)[i]? = some line ∨
       ∃ n : Nat, ((injectLoop (mkCombined [.fileD "a.pdf" "q"] [] 20) 1
          (pySplitlines "Alpha.\n\nBeta.")).1)[i]? =
         some (line ++ " [" ++ toString n ++ "]")) :=
  C9_inject_line_structure "Alpha.\n\nBeta." [.fileD "a.pdf" "q"] [] 20

/-! ## Claim theorems: the references renderer -/

/-- **C5**: with a non-empty marker mapping, if the answer already contains a
match of the case-insensitive pattern "optional whitespace, `references`,
optional whitespace, colon" at a line start, the rendered reference lines are
appended (after a blank line) without a second `**References:**` heading;
otherwise a fresh `**References:**` heading is appended followed by the
rendered lines. -/
theorem C5_reference_placement (ans : String) (mapping : List (Nat × SrcDict × String))
    (hne : mapping ≠ []) :
    (hasRefHeading ans = true →
      render_references ans mapping =
        ans ++ "\n\n" ++ joinNL (mapping.map renderRefLine)) ∧
    (hasRefHeading ans = false →
      render_references ans mapping =
        ans ++ "\n\n**References:**\n" ++ joinNL (mapping.map renderRefLine)) := by
  constructor
  · intro h
    simp [render_references, List.isEmpty_iff, hne, h]
  · intro h
    simp [render_references, List.isEmpty_iff, hne, h]

/-- Witness for C5 at concrete inputs (one answer with an existing
references heading, one without). -/
theorem C5_witness :
    render_references "Done.\nReferences:" [(1, .fileD "a.pdf" "q", "file")] =
      "Done.\nReferences:" ++ "\n\n" ++
        joinNL (([(1, .fileD "a.pdf" "q", "file")] :
          List (Nat × SrcDict × String)).map renderRefLine) ∧
    render_references "Done." [(1, .fileD "a.pdf" "q", "file")] =
      "Done." ++ "\n\n**References:**\n" ++
        joinNL (([(1, .fileD "a.pdf" "q", "file")] :
          List (Nat × SrcDict × String)).map renderRefLine) :=
  ⟨(C5_reference_placement "Done.\nReferences:" [(1, .fileD "a.pdf" "q", "file")]
      (List.cons_ne_nil _ _)).1 (by decide),
   (C5_reference_placement "Done." [(1, .fileD "a.pdf" "q", "file")]
      (List.cons_ne_nil _ _)).2 (by decide)⟩

/-- **C6 (amended)**: a file-kind mapping entry `(n, src, "file")` renders as
`[n] **<filename'>** — <quote'>` where `filename'` is the filename defaulted
to `"file"` when empty and stripped of surrounding whitespace, and `quote'`
is the quote stripped; a web-kind entry with a non-empty URL renders as
`[n] [<title'>](<url>)` with `" — <snippet>"` appended exactly when the
snippet is non-empty, where `title'` is the title defaulted to `"Source"`
when empty; a web-kind entry with an empty URL renders as `[n] <title'>`
(same optional snippet suffix) with no link syntax.  The original claim's
verbatim `<filename>`/`<quote>`/`<title>` placeholders fail on padded or
empty fields (see the counterexample). -/
theorem C6_render_line_format (n : Nat) (fn q t u sn : String) :
    renderRefLine (n, .fileD fn q, "file") =
      "[" ++ toString n ++ "] **" ++ pyStrip (if fn = "" then "file" else fn) ++ "** — " ++
        pyStrip q ∧
    (u ≠ "" → renderRefLine (n, .webD t u sn, "web") =
      "[" ++ toString n ++ "] [" ++ (if t = "" then "Source" else t) ++ "](" ++ u ++ ")" ++
        (if sn ≠ "" then " — " ++ sn else "")) ∧
    renderRefLine (n, .webD t "" sn, "web") =
      "[" ++ toString n ++ "] " ++ (if t = "" then "Source" else t) ++
        (if sn ≠ "" then " — " ++ sn else "") := by
  refine ⟨?_, ?_, ?_⟩
  · by_cases hfn : fn = "" <;> by_cases hq : q = "" <;>
      simp [renderRefLine, SrcDict.get, pyOrD, pyOrO, hfn, hq]
  · intro hu
    by_cases ht : t = "" <;> by_cases hsn : sn = "" <;>
      simp [renderRefLine, SrcDict.get, pyOrD, ht, hu, hsn]
  · by_cases ht : t = "" <;> by_cases hsn : sn = "" <;>
      simp [renderRefLine, SrcDict.get, pyOrD, ht, hsn]

/-- **C6 (counterexample)**: the claim's verbatim format fails on a reachable
entry — a filename with surrounding whitespace (extraction does not strip) is
rendered stripped, not verbatim. -/
theorem C6_render_strip_counterexample :
    renderRefLine (1, .fileD " deck.pdf " "SMB-first GTM", "file") =
      "[1] **deck.pdf** — SMB-first GTM" ∧
    renderRefLine (1, .fileD " deck.pdf " "SMB-first GTM", "file") ≠
      "[1] ** deck.pdf ** — SMB-first GTM" :=
  ⟨by decide, by decide⟩

/-- Witness for C6 at concrete inputs (one entry of each rendered shape,
including the `"Source"` default for an empty title). -/
theorem C6_witness :
    renderRefLine (1, .fileD "deck.pdf" "SMB-first GTM", "file") =
      "[1] **deck.pdf** — SMB-first GTM" ∧
    renderRefLine (2, .webD "TechCrunch" "http://tc.example/x" "usage pricing", "web") =
      "[2] [TechCrunch](http://tc.example/x) — usage pricing" ∧
    renderRefLine (3, .webD "" "" "", "web") = "[3] Source" :=
  ⟨((C6_render_line_format 1 "deck.pdf" "SMB-first GTM" "T" "u" "s").1).trans (by decide),
   ((C6_render_line_format 2 "f" "q" "TechCrunch" "http://tc.example/x" "usage pricing").2.1
      (by decide)).trans (by decide),
   ((C6_render_line_format 3 "f" "q" "" "u" "").2.2).trans (by decide)⟩

/-- Witness for C4 at a concrete input. -/
theorem C4_witness :
    (inject_inline_citations "" [.fileD "a.pdf" "q"] [] 20 = ("", []) ∧
      apply_citations "" [.fileD "a.pdf" "q"] [] = "") ∧
    ((inject_inline_citations "Alpha.\nBeta." [] [] 20).2 = [] ∧
     apply_citations "Alpha.\nBeta." [] [] =
       if ("Alpha.\nBeta." : String) = "" then ("Alpha.\nBeta." : String)
       else joinNL (pySplitlines "Alpha.\nBeta.")) :=
  C4_empty_inputs "Alpha.\nBeta." [.fileD "a.pdf" "q"] []

/-! ## Helper lemmas: the dedup loops -/

theorem pyEq_symm (a b : PyVal) : pyEq a b = pyEq b a := by
  cases a <;> cases b <;> simp [pyEq, eq_comm]

theorem dedupWebGo_spec :
    ∀ (xs : List WebEntry) (seen : List PyVal) (acc out : List WebEntry),
      (∀ e ∈ acc, pyTruthy e.url = true) →
      (∀ e ∈ acc, e.url ∈ seen) →
      acc.Pairwise (fun a b => pyEq a.url b.url = false) →
      dedupWebGo seen acc xs = .ok out →
      ((∀ e ∈ out, pyTruthy e.url = true) ∧
       out.Pairwise (fun a b => pyEq a.url b.url = false)) := by
  intro xs
  induction xs with
  | nil =>
    intro seen acc out hT hM hP h
    simp only [dedupWebGo, Except.ok.injEq] at h
    subst h
    exact ⟨hT, hP⟩
  | cons e rest ih =>
    intro seen acc out hT hM hP h
    simp only [dedupWebGo] at h
    by_cases hu : pyTruthy (if pyTruthy e.url then e.url else .vstr "") = true
    · rw [if_pos hu] at h
      have hue : (if pyTruthy e.url then e.url else PyVal.vstr "") = e.url := by
        by_cases ht : pyTruthy e.url = true
        · rw [if_pos ht]
        · exfalso
          rw [if_neg ht] at hu
          simp [pyTruthy] at hu
      rw [hue] at h hu
      by_cases hh : pyHashable e.url = true
      · rw [hh] at h
        simp only [Bool.not_true, Bool.false_eq_true, if_false] at h
        by_cases hs : seen.any (fun v => pyEq e.url v) = true
        · rw [if_pos hs] at h
          exact ih seen acc out hT hM hP h
        · rw [if_neg hs] at h
          have hsf : ∀ v ∈ seen, pyEq e.url v = false := by
            intro v hv
            by_contra hc
            exact hs (List.any_eq_true.mpr ⟨v, hv, by
              cases hcv : pyEq e.url v
              · exact absurd hcv hc
              · exact rfl⟩)
          refine ih (e.url :: seen) (acc ++ [e]) out ?_ ?_ ?_ h
          · intro x hx
            rcases List.mem_append.mp hx with hxa | hxe
            · exact hT x hxa
            · rw [List.mem_singleton.mp hxe]; exact hu
          · intro x hx
            rcases List.mem_append.mp hx with hxa | hxe
            · exact List.mem_cons_of_mem _ (hM x hxa)
            · rw [List.mem_singleton.mp hxe]; exact List.mem_cons_self _ _
          · refine List.pairwise_append.mpr ⟨hP, List.pairwise_singleton _ _, ?_⟩
            intro a ha b hb
            rw [List.mem_singleton.mp hb]
            rw [pyEq_symm]
            exact hsf a.url (hM a ha)
      · rw [Bool.not_eq_true] at hh
        rw [hh] at h
        simp at h
    · rw [if_neg hu] at h
      exact ih seen acc out hT hM hP h

theorem dedupFilesGo_spec :
    ∀ (xs : List FileEntry) (seen : List (PyVal × PyVal)) (acc out : List FileEntry),
      (∀ e ∈ acc, pyTruthy e.quote = true) →
      (∀ e ∈ acc, (e.filename, e.quote) ∈ seen) →
      acc.Pairwise (fun a b => (pyEq a.filename b.filename && pyEq a.quote b.quote) = false) →
      dedupFilesGo seen acc xs = .ok out →
      ((∀ e ∈ out, pyTruthy e.quote = true) ∧
       out.Pairwise (fun a b => (pyEq a.filename b.filename && pyEq a.quote b.quote) = false)) := by
  intro xs
  induction xs with
  | nil =>
    intro seen acc out hT hM hP h
    simp only [dedupFilesGo, Except.ok.injEq] at h
    subst h
    exact ⟨hT, hP⟩
  | cons e rest ih =>
    intro seen acc out hT hM hP h
    simp only [dedupFilesGo] at h
    by_cases hq : pyTruthy e.quote = true
    · rw [if_pos hq] at h
      by_cases hh : (pyHashable e.filename && pyHashable e.quote) = true
      · rw [hh] at h
        simp only [Bool.not_true, Bool.false_eq_true, if_false] at h
        by_cases hs : seen.any (fun kv => pyEq e.filename kv.1 && pyEq e.quote kv.2) = true
        · rw [if_pos hs] at h
          exact ih seen acc out hT hM hP h
        · rw [if_neg hs] at h
          have hsf : ∀ kv ∈ seen, (pyEq e.filename kv.1 && pyEq e.quote kv.2) = false := by
            intro kv hkv
            by_contra hc
            exact hs (List.any_eq_true.mpr ⟨kv, hkv, by
              cases hckv : (pyEq e.filename kv.1 && pyEq e.quote kv.2)
              · exact absurd hckv hc
              · exact rfl⟩)
          refine ih ((e.filename, e.quote) :: seen) (acc ++ [e]) out ?_ ?_ ?_ h
          · intro x hx
            rcases List.mem_append.mp hx with hxa | hxe
            · exact hT x hxa
            · rw [List.mem_singleton.mp hxe]; exact hq
          · intro x hx
            rcases List.mem_append.mp hx with hxa | hxe
            · exact List.mem_cons_of_mem _ (hM x hxa)
            · rw [List.mem_singleton.mp hxe]; exact List.mem_cons_self _ _
          · refine List.pairwise_append.mpr ⟨hP, List.pairwise_singleton _ _, ?_⟩
            intro a ha b hb
            rw [List.mem_singleton.mp hb]
            have := hsf (a.filename, a.quote) (hM a ha)
            rw [pyEq_symm a.filename e.filename, pyEq_symm a.quote e.quote]
            cases h1 : pyEq e.filename a.filename
            · simp
            · cases h2 : pyEq e.quote a.quote
              · simp
              · rw [h1, h2] at this
                simp at this
      · rw [Bool.not_eq_true] at hh
        rw [hh] at h
        simp at h
    · rw [if_neg hq] at h
      exact ih seen acc out hT hM hP h

theorem firstSeenDedupWeb_sublist : ∀ (xs : List WebEntry) (seen : List PyVal),
    List.Sublist (firstSeenDedupWeb seen xs) xs := by
  intro xs
  induction xs with
  | nil => intro seen; exact List.Sublist.refl _
  | cons e rest ih =>
    intro seen
    simp only [firstSeenDedupWeb]
    by_cases hu : pyTruthy (if pyTruthy e.url then e.url else .vstr "") = true
    · rw [if_pos hu]
      by_cases hs : seen.any (fun v => pyEq (if pyTruthy e.url then e.url else .vstr "") v) = true
      · rw [if_pos hs]; exact (ih seen).cons e
      · rw [if_neg hs]; exact (ih _).cons₂ e
    · rw [if_neg hu]; exact (ih seen).cons e

theorem firstSeenDedupFiles_sublist : ∀ (xs : List FileEntry) (seen : List (PyVal × PyVal)),
    List.Sublist (firstSeenDedupFiles seen xs) xs := by
  intro xs
  induction xs with
  | nil => intro seen; exact List.Sublist.refl _
  | cons e rest ih =>
    intro seen
    simp only [firstSeenDedupFiles]
    by_cases hq : pyTruthy e.quote = true
    · rw [if_pos hq]
      by_cases hs : seen.any (fun kv => pyEq e.filename kv.1 && pyEq e.quote kv.2) = true
      · rw [if_pos hs]; exact (ih seen).cons e
      · rw [if_neg hs]; exact (ih _).cons₂ e
    · rw [if_neg hq]; exact (ih seen).cons e

theorem dedupWebGo_eq_firstSeen :
    ∀ (xs : List WebEntry) (seen : List PyVal) (acc out : List WebEntry),
      dedupWebGo seen acc xs = .ok out → out = acc ++ firstSeenDedupWeb seen xs := by
  intro xs
  induction xs with
  | nil =>
    intro seen acc out h
    simp only [dedupWebGo, Except.ok.injEq] at h
    subst h
    simp [firstSeenDedupWeb]
  | cons e rest ih =>
    intro seen acc out h
    simp only [dedupWebGo] at h
    simp only [firstSeenDedupWeb]
    by_cases hu : pyTruthy (if pyTruthy e.url then e.url else .vstr "") = true
    · rw [if_pos hu] at h
      rw [if_pos hu]
      by_cases hh : pyHashable (if pyTruthy e.url then e.url else PyVal.vstr "") = true
      · rw [hh] at h
        simp only [Bool.not_true, Bool.false_eq_true, if_false] at h
        by_cases hs : seen.any (fun v => pyEq (if pyTruthy e.url then e.url else .vstr "") v) = true
        · rw [if_pos hs] at h
          rw [if_pos hs]
          exact ih seen acc out h
        · rw [if_neg hs] at h
          rw [if_neg hs]
          have := ih _ _ out h
          rw [this, List.append_assoc]
          rfl
      · rw [Bool.not_eq_true] at hh
        rw [hh] at h
        simp at h
    · rw [if_neg hu] at h
      rw [if_neg hu]
      exact ih seen acc out h

theorem dedupFilesGo_eq_firstSeen :
    ∀ (xs : List FileEntry) (seen : List (PyVal × PyVal)) (acc out : List FileEntry),
      dedupFilesGo seen acc xs = .ok out → out = acc ++ firstSeenDedupFiles seen xs := by
  intro xs
  induction xs with
  | nil =>
    intro seen acc out h
    simp only [dedupFilesGo, Except.ok.injEq] at h
    subst h
    simp [firstSeenDedupFiles]
  | cons e rest ih =>
    intro seen acc out h
    simp only [dedupFilesGo] at h
    simp only [firstSeenDedupFiles]
    by_cases hq : pyTruthy e.quote = true
    · rw [if_pos hq] at h
      rw [if_pos hq]
      by_cases hh : (pyHashable e.filename && pyHashable e.quote) = true
      · rw [hh] at h
        simp only [Bool.not_true, Bool.false_eq_true, if_false] at h
        by_cases hs : seen.any (fun kv => pyEq e.filename kv.1 && pyEq e.quote kv.2) = true
        · rw [if_pos hs] at h
          rw [if_pos hs]
          exact ih seen acc out h
        · rw [if_neg hs] at h
          rw [if_neg hs]
          have := ih _ _ out h
          rw [this, List.append_assoc]
          rfl
      · rw [Bool.not_eq_true] at hh
        rw [hh] at h
        simp at h
    · rw [if_neg hq] at h
      rw [if_neg hq]
      exact ih seen acc out h

/-! ## Claim theorems: extraction and dedup -/

/-- **C2**: whenever `extract_sources_and_quotes` returns its two sequences,
each sequence is exactly the first-seen deduplication of the extracted
entries — the first occurrence of each Python-equal URL (resp.
`(filename, quote)` pair) is kept, in extraction order, so each output is a
subsequence of the extraction order — capped at 10 elements; the web sequence
contains no entry with a missing or empty URL and no two entries with a
Python-equal URL, and the file sequence contains no entry with a missing or
empty quote and no two entries with a Python-equal `(filename, quote)`
pair. -/
theorem C2_extract_dedup (resp : PyVal) (ws : List WebEntry) (fs : List FileEntry)
    (h : extract_sources_and_quotes resp = .ok (ws, fs)) :
    ws = (firstSeenDedupWeb [] (tryExtract resp).web).take 10 ∧
    fs = (firstSeenDedupFiles [] (tryExtract resp).files).take 10 ∧
    List.Sublist ws (tryExtract resp).web ∧
    List.Sublist fs (tryExtract resp).files ∧
    ws.length ≤ 10 ∧ fs.length ≤ 10 ∧
    (∀ e ∈ ws, pyTruthy e.url = true) ∧
    ws.Pairwise (fun a b => pyEq a.url b.url = false) ∧
    (∀ e ∈ fs, pyTruthy e.quote = true) ∧
    fs.Pairwise (fun a b => (pyEq a.filename b.filename && pyEq a.quote b.quote) = false) := by
  unfold extract_sources_and_quotes at h
  dsimp only at h
  cases hw : dedupWebGo [] [] (tryExtract resp).web with
  | error e => rw [hw] at h; simp at h
  | ok dw =>
    cases hf : dedupFilesGo [] [] (tryExtract resp).files with
    | error e => rw [hw, hf] at h; simp at h
    | ok df =>
      rw [hw, hf] at h
      simp only [Except.ok.injEq, Prod.mk.injEq] at h
      obtain ⟨hws, hfs⟩ := h
      subst hws; subst hfs
      have hwspec := dedupWebGo_spec (tryExtract resp).web [] [] dw
        (by intro e he; simp at he) (by intro e he; simp at he) List.Pairwise.nil hw
      have hfspec := dedupFilesGo_spec (tryExtract resp).files [] [] df
        (by intro e he; simp at he) (by intro e he; simp at he) List.Pairwise.nil hf
      have hweq : dw = firstSeenDedupWeb [] (tryExtract resp).web := by
        have := dedupWebGo_eq_firstSeen (tryExtract resp).web [] [] dw hw
        simpa using this
      have hfeq : df = firstSeenDedupFiles [] (tryExtract resp).files := by
        have := dedupFilesGo_eq_firstSeen (tryExtract resp).files [] [] df hf
        simpa using this
      refine ⟨?_, ?_, ?_, ?_, ?_, ?_, ?_, ?_, ?_, ?_⟩
      · rw [hweq]
      · rw [hfeq]
      · rw [hweq]
        exact (List.take_sublist _ _).trans (firstSeenDedupWeb_sublist _ [])
      · rw [hfeq]
        exact (List.take_sublist _ _).trans (firstSeenDedupFiles_sublist _ [])
      · rw [List.length_take]; exact Nat.min_le_left _ _
      · rw [List.length_take]; exact Nat.min_le_left _ _
      · intro e he; exact hwspec.1 e (List.mem_of_mem_take he)
      · exact List.Pairwise.sublist (List.take_sublist 10 dw) hwspec.2
      · intro e he; exact hfspec.1 e (List.mem_of_mem_take he)
      · exact List.Pairwise.sublist (List.take_sublist 10 df) hfspec.2

/-- Witness for C2: a response with a duplicated URL (`u1`) in the web-search
tool output; only the first occurrence of `u1` is kept, in extraction order,
and both kept entries have distinct, non-empty URLs. -/
theorem C2_witness :
    ([⟨.vstr "A", .vstr "u1", .vstr ""⟩, ⟨.vstr "Source", .vstr "u2", .vstr ""⟩] : List WebEntry) =
      (firstSeenDedupWeb [] (tryExtract (.vobj [("output", .vlist [.vobj [("type", .vstr "tool_result"),
      ("tool_name", .vstr "web_search"),
      ("output", .vdict [("results", .vlist
        [.vdict [("title", .vstr "A"), ("url", .vstr "u1")],
         .vdict [("url", .vstr "u1")],
         .vdict [("url", .vstr "u2")]])])]])])).web).take 10 ∧
    ([] : List FileEntry) =
      (firstSeenDedupFiles [] (tryExtract (.vobj [("output", .vlist [.vobj [("type", .vstr "tool_result"),
      ("tool_name", .vstr "web_search"),
      ("output", .vdict [("results", .vlist
        [.vdict [("title", .vstr "A"), ("url", .vstr "u1")],
         .vdict [("url", .vstr "u1")],
         .vdict [("url", .vstr "u2")]])])]])])).files).take 10 ∧
    List.Sublist ([⟨.vstr "A", .vstr "u1", .vstr ""⟩, ⟨.vstr "Source", .vstr "u2", .vstr ""⟩] : List WebEntry)
      (tryExtract (.vobj [("output", .vlist [.vobj [("type", .vstr "tool_result"),
      ("tool_name", .vstr "web_search"),
      ("output", .vdict [("results", .vlist
        [.vdict [("title", .vstr "A"), ("url", .vstr "u1")],
         .vdict [("url", .vstr "u1")],
         .vdict [("url", .vstr "u2")]])])]])])).web ∧
    List.Sublist ([] : List FileEntry)
      (tryExtract (.vobj [("output", .vlist [.vobj [("type", .vstr "tool_result"),
      ("tool_name", .vstr "web_search"),
      ("output", .vdict [("results", .vlist
        [.vdict [("title", .vstr "A"), ("url", .vstr "u1")],
         .vdict [("url", .vstr "u1")],
         .vdict [("url", .vstr "u2")]])])]])])).files ∧
    (([⟨.vstr "A", .vstr "u1", .vstr ""⟩, ⟨.vstr "Source", .vstr "u2", .vstr ""⟩] : List WebEntry)).length ≤ 10 ∧
    ([] : List FileEntry).length ≤ 10 ∧
    (∀ e ∈ ([⟨.vstr "A", .vstr "u1", .vstr ""⟩, ⟨.vstr "Source", .vstr "u2", .vstr ""⟩] : List WebEntry), pyTruthy e.url = true) ∧
    (([⟨.vstr "A", .vstr "u1", .vstr ""⟩, ⟨.vstr "Source", .vstr "u2", .vstr ""⟩] : List WebEntry)).Pairwise (fun a b => pyEq a.url b.url = false) ∧
    (∀ e ∈ ([] : List FileEntry), pyTruthy e.quote = true) ∧
    ([] : List FileEntry).Pairwise
      (fun a b => (pyEq a.filename b.filename && pyEq a.quote b.quote) = false) :=
  C2_extract_dedup
    (.vobj [("output", .vlist [.vobj [("type", .vstr "tool_result"),
      ("tool_name", .vstr "web_search"),
      ("output", .vdict [("results", .vlist
        [.vdict [("title", .vstr "A"), ("url", .vstr "u1")],
         .vdict [("url", .vstr "u1")],
         .vdict [("url", .vstr "u2")]])])]])])
    [⟨.vstr "A", .vstr "u1", .vstr ""⟩, ⟨.vstr "Source", .vstr "u2", .vstr ""⟩]
    [] rfl

/-! ## Helper lemmas: `sanitize_text` -/

theorem contains_eq_false_of_not_mem {c : Char} {l : List Char} (h : c ∉ l) :
    l.contains c = false := by
  simp [List.contains, h]

theorem findClose_none_not_mem : ∀ (cs : List Char), findClose cs = none → citeClose ∉ cs := by
  intro cs
  induction cs with
  | nil => intro _; simp
  | cons c cs ih =>
    intro h
    simp only [findClose] at h
    by_cases hc : c = citeClose
    · rw [if_pos hc] at h; exact absurd h (by simp)
    · rw [if_neg hc] at h
      simp only [List.mem_cons, not_or]
      exact ⟨fun he => hc he.symm, ih h⟩

theorem findClose_some_length : ∀ (cs r : List Char), findClose cs = some r →
    r.length < cs.length := by
  intro cs
  induction cs with
  | nil => intro r h; simp [findClose] at h
  | cons c cs ih =>
    intro r h
    simp only [findClose] at h
    by_cases hc : c = citeClose
    · rw [if_pos hc] at h
      cases h
      simp
    · rw [if_neg hc] at h
      exact Nat.lt_trans (ih r h) (by simp)

theorem findClose_some_suffix : ∀ (cs r : List Char), findClose cs = some r → r <:+ cs := by
  intro cs
  induction cs with
  | nil => intro r h; simp [findClose] at h
  | cons c cs ih =>
    intro r h
    simp only [findClose] at h
    by_cases hc : c = citeClose
    · rw [if_pos hc] at h
      cases h
      exact ⟨[c], rfl⟩
    · rw [if_neg hc] at h
      exact (ih r h).trans ⟨[c], rfl⟩

theorem stripCWFuel_sublist : ∀ (fuel : Nat) (cs : List Char), cs.length ≤ fuel →
    List.Sublist (stripCWFuel fuel cs) cs := by
  intro fuel
  induction fuel with
  | zero => intro cs _; exact List.Sublist.refl _
  | succ fuel ih =>
    intro cs h
    match cs with
    | [] => exact List.nil_sublist _
    | c :: rest =>
      simp only [stripCWFuel]
      by_cases hc : c = citeOpen
      · rw [if_pos hc]
        cases hf : findClose rest with
        | some rest' =>
          have hlen : rest'.length ≤ fuel := by
            have h1 := findClose_some_length rest rest' hf
            simp only [List.length_cons] at h
            omega
          exact ((ih rest' hlen).trans
            ((findClose_some_suffix rest rest' hf).sublist)).cons c
        | none =>
          have hlen : rest.length ≤ fuel := by
            simp only [List.length_cons] at h
            omega
          exact (ih rest hlen).cons₂ c
      · rw [if_neg hc]
        have hlen : rest.length ≤ fuel := by
          simp only [List.length_cons] at h
          omega
        exact (ih rest hlen).cons₂ c

theorem noSpanB_sublist : ∀ {l' l : List Char}, List.Sublist l' l → noSpanB l = true →
    noSpanB l' = true := by
  intro l' l h
  induction h with
  | slnil => intro h; exact h
  | cons a _ ih =>
    intro hn
    simp only [noSpanB, Bool.and_eq_true] at hn
    exact ih hn.2
  | @cons₂ l₁ l₂ a hsub ih =>
    intro hn
    simp only [noSpanB, Bool.and_eq_true] at hn ⊢
    refine ⟨?_, ih hn.2⟩
    by_cases ha : a = citeOpen
    · rw [if_pos ha] at hn ⊢
      have h2 : citeClose ∉ l₂ := by
        have := hn.1
        simp [List.contains, List.elem_eq_mem] at this
        exact this
      have h1 : citeClose ∉ l₁ := fun hm => h2 (hsub.subset hm)
      rw [contains_eq_false_of_not_mem h1]
      rfl
    · rw [if_neg ha]

theorem stripCWFuel_noSpan : ∀ (fuel : Nat) (cs : List Char), cs.length ≤ fuel →
    noSpanB (stripCWFuel fuel cs) = true := by
  intro fuel
  induction fuel with
  | zero =>
    intro cs h
    have : cs = [] := List.length_eq_zero.mp (Nat.le_zero.mp h)
    subst this
    rfl
  | succ fuel ih =>
    intro cs h
    match cs with
    | [] => rfl
    | c :: rest =>
      simp only [stripCWFuel]
      have hlen : rest.length ≤ fuel := by
        simp only [List.length_cons] at h
        omega
      by_cases hc : c = citeOpen
      · rw [if_pos hc]
        cases hf : findClose rest with
        | some rest' =>
          have hlen' : rest'.length ≤ fuel := by
            have h1 := findClose_some_length rest rest' hf
            simp only [List.length_cons] at h
            omega
          exact ih rest' hlen'
        | none =>
          have hnm : citeClose ∉ rest := findClose_none_not_mem rest hf
          have hnm2 : citeClose ∉ stripCWFuel fuel rest :=
            fun hm => hnm ((stripCWFuel_sublist fuel rest hlen).subset hm)
          simp only [noSpanB, Bool.and_eq_true]
          refine ⟨?_, ih rest hlen⟩
          rw [if_pos hc, contains_eq_false_of_not_mem hnm2]
          rfl
      · rw [if_neg hc]
        simp only [noSpanB, Bool.and_eq_true]
        refine ⟨?_, ih rest hlen⟩
        rw [if_neg hc]

theorem parseLit_suffix : ∀ (lit cs r : List Char), parseLit lit cs = some r → r <:+ cs := by
  intro lit
  induction lit with
  | nil =>
    intro cs r h
    simp only [parseLit, Option.some.injEq] at h
    subst h
    exact List.suffix_refl _
  | cons l ls ih =>
    intro cs r h
    match cs with
    | [] => simp [parseLit] at h
    | c :: cs' =>
      simp only [parseLit] at h
      by_cases hc : c = l
      · rw [if_pos hc] at h
        exact (ih cs' r h).trans ⟨[c], rfl⟩
      · rw [if_neg hc] at h
        exact absurd h (by simp)

theorem parseLit_length : ∀ (lit cs r : List Char), parseLit lit cs = some r →
    r.length + lit.length = cs.length := by
  intro lit
  induction lit with
  | nil =>
    intro cs r h
    simp only [parseLit, Option.some.injEq] at h
    subst h
    simp
  | cons l ls ih =>
    intro cs r h
    match cs with
    | [] => simp [parseLit] at h
    | c :: cs' =>
      simp only [parseLit] at h
      by_cases hc : c = l
      · rw [if_pos hc] at h
        have := ih cs' r h
        simp only [List.length_cons]
        omega
      · rw [if_neg hc] at h
        exact absurd h (by simp)

theorem matchTurnFileAt_suffix : ∀ (cs r : List Char), matchTurnFileAt cs = some r →
    r <:+ cs := by
  intro cs r h
  unfold matchTurnFileAt at h
  cases h1 : parseLit ['[', 't', 'u', 'r', 'n'] cs with
  | none => rw [h1] at h; simp at h
  | some cs1 =>
    rw [h1] at h
    simp only at h
    by_cases hd : (cs1.takeWhile Char.isDigit).isEmpty
    · rw [if_pos hd] at h; simp at h
    · rw [if_neg hd] at h
      cases h2 : parseLit ['f', 'i', 'l', 'e'] (cs1.dropWhile Char.isDigit) with
      | none => rw [h2] at h; simp at h
      | some cs3 =>
        rw [h2] at h
        simp only at h
        by_cases hd2 : (cs3.takeWhile Char.isDigit).isEmpty
        · rw [if_pos hd2] at h; simp at h
        · rw [if_neg hd2] at h
          cases h3 : parseLit [']'] (cs3.dropWhile Char.isDigit) with
          | none => rw [h3] at h; simp at h
          | some cs5 =>
            rw [h3] at h
            simp only [Option.some.injEq] at h
            subst h
            exact ((((parseLit_suffix _ _ _ h3).trans
              (List.dropWhile_suffix _)).trans
              (parseLit_suffix _ _ _ h2)).trans
              (List.dropWhile_suffix _)).trans
              (parseLit_suffix _ _ _ h1)

theorem matchTurnFileAt_length : ∀ (cs r : List Char), matchTurnFileAt cs = some r →
    r.length < cs.length := by
  intro cs r h
  have hsuf := matchTurnFileAt_suffix cs r h
  unfold matchTurnFileAt at h
  cases h1 : parseLit ['[', 't', 'u', 'r', 'n'] cs with
  | none => rw [h1] at h; simp at h
  | some cs1 =>
    rw [h1] at h
    simp only at h
    by_cases hd : (cs1.takeWhile Char.isDigit).isEmpty
    · rw [if_pos hd] at h; simp at h
    · rw [if_neg hd] at h
      cases h2 : parseLit ['f', 'i', 'l', 'e'] (cs1.dropWhile Char.isDigit) with
      | none => rw [h2] at h; simp at h
      | some cs3 =>
        rw [h2] at h
        simp only at h
        by_cases hd2 : (cs3.takeWhile Char.isDigit).isEmpty
        · rw [if_pos hd2] at h; simp at h
        · rw [if_neg hd2] at h
          cases h3 : parseLit [']'] (cs3.dropWhile Char.isDigit) with
          | none => rw [h3] at h; simp at h
          | some cs5 =>
            rw [h3] at h
            simp only [Option.some.injEq] at h
            subst h
            have l1 := parseLit_length _ _ _ h1
            have l3 := parseLit_length _ _ _ h3
            have l2 : (cs1.dropWhile Char.isDigit).length ≤ cs1.length :=
              (List.dropWhile_sublist _).length_le
            have l4 : (cs3.dropWhile Char.isDigit).length ≤ cs3.length :=
              (List.dropWhile_sublist _).length_le
            have l5 := parseLit_length _ _ _ h2
            simp only [List.length_cons, List.length_nil] at l1 l3 l5
            omega

theorem stripTFFuel_sublist : ∀ (fuel : Nat) (cs : List Char), cs.length ≤ fuel →
    List.Sublist (stripTFFuel fuel cs) cs := by
  intro fuel
  induction fuel with
  | zero => intro cs _; exact List.Sublist.refl _
  | succ fuel ih =>
    intro cs h
    match cs with
    | [] => exact List.nil_sublist _
    | c :: rest =>
      simp only [stripTFFuel]
      cases hm : matchTurnFileAt (c :: rest) with
      | some rest' =>
        have hlen : rest'.length ≤ fuel := by
          have h1 := matchTurnFileAt_length _ _ hm
          simp only [List.length_cons] at h h1
          omega
        exact (ih rest' hlen).trans (matchTurnFileAt_suffix _ _ hm).sublist
      | none =>
        have hlen : rest.length ≤ fuel := by
          simp only [List.length_cons] at h
          omega
        exact (ih rest hlen).cons₂ c

theorem pyStripL_sublist (l : List Char) : List.Sublist (pyStripL l) l := by
  unfold pyStripL
  have h1 : List.Sublist (l.dropWhile isSpacePy) l := List.dropWhile_sublist _
  have h2 : List.Sublist ((l.dropWhile isSpacePy).reverse.dropWhile isSpacePy)
      (l.dropWhile isSpacePy).reverse := List.dropWhile_sublist _
  have h3 := h2.reverse
  rw [List.reverse_reverse] at h3
  exact h3.trans h1

theorem pyStripL_head : ∀ (l : List Char) (a : Char),
    (pyStripL l).head? = some a → isSpacePy a = false := by
  intro l a h
  unfold pyStripL at h
  rw [List.head?_reverse] at h
  obtain ⟨t, ht⟩ := List.dropWhile_suffix (l := (l.dropWhile isSpacePy).reverse) isSpacePy
  have hlast : ((l.dropWhile isSpacePy).reverse).getLast? = some a := by
    rw [← ht, List.getLast?_append, h]
    rfl
  rw [List.getLast?_reverse] at hlast
  have := List.head?_dropWhile_not isSpacePy l
  rw [hlast] at this
  exact this

theorem pyStripL_last : ∀ (l : List Char) (a : Char),
    (pyStripL l).getLast? = some a → isSpacePy a = false := by
  intro l a h
  unfold pyStripL at h
  rw [List.getLast?_reverse] at h
  have := List.head?_dropWhile_not isSpacePy (l.dropWhile isSpacePy).reverse
  rw [h] at this
  exact this

theorem stripTFFuel_eq_self_of_no_token :
    ∀ (fuel : Nat) (cs : List Char), cs.length ≤ fuel →
      (∀ t, t <:+ cs → matchTurnFileAt t = none) → stripTFFuel fuel cs = cs := by
  intro fuel
  induction fuel with
  | zero => intro cs _ _; rfl
  | succ fuel ih =>
    intro cs hlen hno
    match cs with
    | [] => rfl
    | c :: rest =>
      simp only [stripTFFuel]
      rw [hno (c :: rest) (List.suffix_refl _)]
      have hrest : ∀ t, t <:+ rest → matchTurnFileAt t = none := by
        intro t ht
        exact hno t (ht.trans ⟨[c], rfl⟩)
      have : rest.length ≤ fuel := by
        simp only [List.length_cons] at hlen
        omega
      rw [ih rest this hrest]

theorem stripTFFuel_no_token_of_eq_self :
    ∀ (fuel : Nat) (cs : List Char), cs.length ≤ fuel → stripTFFuel fuel cs = cs →
      ∀ t, t <:+ cs → matchTurnFileAt t = none := by
  intro fuel
  induction fuel with
  | zero =>
    intro cs hlen _ t ht
    have : cs = [] := List.length_eq_zero.mp (Nat.le_zero.mp hlen)
    subst this
    rw [List.suffix_nil.mp ht]
    rfl
  | succ fuel ih =>
    intro cs hlen hEq t ht
    match cs with
    | [] =>
      rw [List.suffix_nil.mp ht]
      rfl
    | c :: rest =>
      simp only [stripTFFuel] at hEq
      have hrlen : rest.length ≤ fuel := by
        simp only [List.length_cons] at hlen
        omega
      cases hm : matchTurnFileAt (c :: rest) with
      | some rest' =>
        rw [hm] at hEq
        exfalso
        have h1 := matchTurnFileAt_length _ _ hm
        have h2 : (stripTFFuel fuel rest').length ≤ rest'.length :=
          (stripTFFuel_sublist fuel rest' (by
            simp only [List.length_cons] at hlen h1
            omega)).length_le
        have h3 := congrArg List.length hEq
        simp only [List.length_cons] at h1 h3
        omega
      | none =>
        rw [hm] at hEq
        simp only [List.cons.injEq, true_and] at hEq
        obtain ⟨u, hu⟩ := ht
        match u with
        | [] =>
          simp only [List.nil_append] at hu
          subst hu
          exact hm
        | x :: u' =>
          simp only [List.cons_append, List.cons.injEq] at hu
          exact ih rest hrlen hEq t ⟨u', hu.2⟩

/-! ## Claim theorems: `sanitize_text` -/

/-- **C10 (amended)**: for every string, `sanitize_text` returns a string
with no U+E200…U+E201 wrapped citation span, no zero-width characters
(U+200B, U+200C, U+200D, U+2060), and leading and trailing whitespace
stripped; an empty (falsy) input is returned unchanged.  The `[turnNfileM]`
removal is a single left-to-right pass: it leaves a text unchanged exactly
when no position of that text starts a token, so any pass that finds a token
removes something — but the pieces around a removed inner token can splice
into a new token that remains in the output (see the counterexample). -/
theorem C10_sanitize_guarantees (s : String) :
    (s = "" → sanitize_text s = s) ∧
    noSpanB (sanitize_text s).data = true ∧
    (∀ c ∈ (sanitize_text s).data, isZeroWidth c = false) ∧
    (∀ a : Char, ((sanitize_text s).data.head? = some a → isSpacePy a = false) ∧
      ((sanitize_text s).data.getLast? = some a → isSpacePy a = false)) ∧
    (∀ cs : List Char,
      stripTurnFile cs = cs ↔ ∀ t, t <:+ cs → matchTurnFileAt t = none) := by
  have hfix : ∀ cs : List Char,
      stripTurnFile cs = cs ↔ ∀ t, t <:+ cs → matchTurnFileAt t = none := by
    intro cs
    constructor
    · exact stripTFFuel_no_token_of_eq_self cs.length cs (Nat.le_refl _)
    · exact stripTFFuel_eq_self_of_no_token cs.length cs (Nat.le_refl _)
  by_cases hs : s = ""
  · subst hs
    refine ⟨fun _ => rfl, by decide, by decide, ?_, hfix⟩
    intro a
    refine ⟨fun h => ?_, fun h => ?_⟩
    · simp [sanitize_text] at h
    · simp [sanitize_text] at h
  · have hdata : (sanitize_text s).data =
        pyStripL (((stripTurnFile (stripCW s.data))).filter (fun c => !isZeroWidth c)) := by
      simp only [sanitize_text, if_neg hs]
    refine ⟨fun h => absurd h hs, ?_, ?_, ?_, hfix⟩
    · rw [hdata]
      have n1 : noSpanB (stripCW s.data) = true :=
        stripCWFuel_noSpan s.data.length s.data (Nat.le_refl _)
      have s2 : List.Sublist (stripTurnFile (stripCW s.data)) (stripCW s.data) :=
        stripTFFuel_sublist _ _ (Nat.le_refl _)
      have s3 : List.Sublist ((stripTurnFile (stripCW s.data)).filter (fun c => !isZeroWidth c))
          (stripTurnFile (stripCW s.data)) := List.filter_sublist _
      have s4 := pyStripL_sublist
        ((stripTurnFile (stripCW s.data)).filter (fun c => !isZeroWidth c))
      exact noSpanB_sublist (s4.trans (s3.trans s2)) n1
    · rw [hdata]
      intro c hc
      have hc2 := (pyStripL_sublist _).subset hc
      have := (List.mem_filter.mp hc2).2
      simpa using this
    · rw [hdata]
      intro a
      exact ⟨pyStripL_head _ a, pyStripL_last _ a⟩

/-- **C10 (counterexample)**: `sanitize_text "[turn1file[turn2file3]2]"`
returns `"[turn1file2]"`, which itself begins with a `[turnNfileM]` token:
removing the inner token splices a new one together, and the single-pass
substitution does not revisit it. -/
theorem C10_turnfile_counterexample :
    sanitize_text "[turn1file[turn2file3]2]" = "[turn1file2]" ∧
    matchTurnFileAt ((sanitize_text "[turn1file[turn2file3]2]").data) ≠ none := by
  exact ⟨by decide, by decide⟩

/-- Witness for C10 at a concrete input containing a wrapped citation span,
a zero-width character and surrounding whitespace. -/
theorem C10_witness :
    (("  \uE200cite\uE201x\u200By  " : String) = "" →
      sanitize_text "  \uE200cite\uE201x\u200By  " = "  \uE200cite\uE201x\u200By  ") ∧
    noSpanB (sanitize_text "  \uE200cite\uE201x\u200By  ").data = true ∧
    (∀ c ∈ (sanitize_text "  \uE200cite\uE201x\u200By  ").data, isZeroWidth c = false) ∧
    (∀ a : Char,
      ((sanitize_text "  \uE200cite\uE201x\u200By  ").data.head? = some a → isSpacePy a = false) ∧
      ((sanitize_text "  \uE200cite\uE201x\u200By  ").data.getLast? = some a → isSpacePy a = false)) ∧
    (∀ cs : List Char,
      stripTurnFile cs = cs ↔ ∀ t, t <:+ cs → matchTurnFileAt t = none) :=
  C10_sanitize_guarantees "  \uE200cite\uE201x\u200By  "

/-- **C7**: evaluation of the model at the failing input.  A web-search
result `{"url": ["x"]}` passes the block walk (the list URL is truthy, so the
entry is appended inside the `try`), but the dedup loop — which runs outside
the `try/except` — hashes the URL for the `u not in seen_urls` membership
test and raises `TypeError: unhashable type: 'list'`, which propagates to the
caller.  The claim (and the code's own `try/except` and docstring) say the
function never raises, so this is a code bug. -/
theorem C7_extract_raises_on_unhashable_url :
    extract_sources_and_quotes
      (.vobj [("output", .vlist [.vobj [("type", .vstr "tool_result"),
        ("tool_name", .vstr "web_search"),
        ("output", .vdict [("results", .vlist [.vdict [("url", .vlist [.vstr "x"])]])])]])])
      = .error () := rfl

end Chatbot
